import Mathlib

/-!
# The Gophish API gateway: route registration and gate chains

A verification development for `controllers/api/server.go`: the `Server`
value, its options, `NewServer`, and the route table that `registerRoutes`
builds on a gorilla/mux subrouter.

The router library is embedded as far as `registerRoutes` uses it: strict-slash
path templates with `[0-9]+` variables, method matchers, router-level
middleware, first-match dispatch.  The path-cleaning redirect that mux performs
before matching is not part of the embedding; it only concerns paths with
empty, `.` or `..` segments.
-/

namespace Gophish

/-! ## Principals, requests, gates, handlers -/

/-- A capability is an opaque named permission. -/
abbrev Capability := String

/-- Modelled from the spec: `models.PermissionModifySystem`, a constant of the
`models` package, which is not among the sources; the spec names the
capability "modify-system". -/
def PermissionModifySystem : Capability := "modify-system"

/-- The identity resolved from an API key (spec, section 3). -/
structure Principal where
  id : Nat
  tenant : Nat
  capabilities : List Capability
  readOnly : Bool
deriving DecidableEq, Repr

/-- The parts of an HTTP request that routing and the gates look at. -/
structure Request where
  method : String
  path : String
  apiKey : Option String
deriving DecidableEq, Repr

/-- The three middleware values `registerRoutes` refers to. -/
inductive Gate where
  | RequireAPIKey
  | EnforceViewOnly
  | RequirePermission (c : Capability)
deriving DecidableEq, Repr

/-- The handler methods of `Server` that `registerRoutes` binds to routes. -/
inductive Handler where
  | IMAPServer | ImapsByTenant | IMAPServerValidate | Reset
  | Campaigns | CampaignsSummary | Campaign | CampaignResults | CampaignSummary
  | CampaignComplete | CampaignsByTenant
  | Groups | GroupsSummary | Group | GroupSummary | GroupsByTenant
  | Templates | Template | TemplatesByTenant
  | Pages | Page | PagesByTenant
  | SendingProfiles | SendingProfile | SmtpsByTenant
  | Users | User | UsersByTenant
  | SendTestEmail | ImportGroup | ImportEmail | ImportSite
  | Webhooks | ValidateWebhook | Webhook | WebhooksByTenant
  | Tenants | Tenant
deriving DecidableEq, Repr

/-- An `http.HandlerFunc` as route registration sees it: a handler method,
possibly wrapped in gates; the head of `gates` is the outermost wrapper. -/
structure HandlerFunc where
  gates : List Gate
  target : Handler
deriving DecidableEq, Repr

/-- A bare handler method value such as `as.Campaigns`. -/
def HandlerFunc.of (h : Handler) : HandlerFunc := { gates := [], target := h }

/-- Modelled from the spec: `mid.Use` of the `middleware` package, which is not
among the sources.  It composes a handler with the gates given for it at
route-registration time (spec, sections 4.6 and 9): each gate in turn wraps
the handler built so far, so the gate given last runs first. -/
def Use (handler : HandlerFunc) (mid : List Gate) : HandlerFunc :=
  mid.foldl (fun h m => { h with gates := m :: h.gates }) handler

/-! ## Path templates -/

/-- A piece of a parsed path template. -/
inductive Piece where
  | lit (c : Char)
  | var (name : List Char) (pattern : List Char)
deriving DecidableEq, Repr

/-- A unit of a compiled path expression: one literal character, or `[0-9]+`. -/
inductive Tok where
  | ch (c : Char)
  | digits
deriving DecidableEq, Repr

/-- The pattern a variable gets when the template gives none. -/
def defaultPattern : List Char := "[^/]+".data

/-- The pattern of the variables in the route table. -/
def digitsPattern : List Char := "[0-9]+".data

/-- Splits a variable body `name:pattern` at the first colon. -/
def splitVar (body : List Char) : List Char × List Char :=
  (body.takeWhile (fun c => c != ':'),
   match body.dropWhile (fun c => c != ':') with
   | [] => defaultPattern
   | _ :: p => p)

/-- Parses a template into literal characters and variables.  The first
argument holds the reversed body of the variable being read, if any.  Braces
do not nest here, and an unbalanced brace is an error. -/
def parsePieces : Option (List Char) → List Char → Option (List Piece)
  | none, [] => some []
  | some _, [] => none
  | none, c :: rest =>
      if c = '{' then parsePieces (some []) rest
      else if c = '}' then none
      else (parsePieces none rest).map (fun ps => Piece.lit c :: ps)
  | some acc, c :: rest =>
      if c = '}' then
        (parsePieces none rest).map
          (fun ps => Piece.var (splitVar acc.reverse).1 (splitVar acc.reverse).2 :: ps)
      else if c = '{' then none
      else parsePieces (some (c :: acc)) rest

/-- Compiles a piece: a literal matches itself, a variable matches its pattern.
Only the pattern `[0-9]+` is interpreted. -/
def compilePiece : Piece → Option Tok
  | .lit c => some (.ch c)
  | .var _ p => if p = digitsPattern then some .digits else none

/-- Compiles all pieces, failing if one fails. -/
def compilePieces : List Piece → Option (List Tok)
  | [] => some []
  | p :: ps =>
      match compilePiece p, compilePieces ps with
      | some t, some ts => some (t :: ts)
      | _, _ => none

/-- Removes every trailing slash (`strings.TrimRight(s, "/")`). -/
def trimRightSlash (s : List Char) : List Char :=
  (s.reverse.dropWhile (fun c => c == '/')).reverse

/-- Whether the character list ends in a slash. -/
def endsWithSlash (s : List Char) : Bool :=
  s.getLast? == some '/'

/-- A compiled path matcher of a route. -/
structure RouteRegexp where
  template : List Char
  strictSlash : Bool
  pieces : List Piece
  toks : List Tok
deriving DecidableEq, Repr

/-- Compiles a full path template.  With strict slash a trailing slash is
taken off the template and the expression accepts an optional one. -/
def newRouteRegexp (tpl : List Char) (strictSlash : Bool) : Option RouteRegexp :=
  let body := if strictSlash && endsWithSlash tpl then tpl.dropLast else tpl
  match parsePieces none body with
  | none => none
  | some ps =>
      match compilePieces ps with
      | none => none
      | some ts => some { template := tpl, strictSlash := strictSlash, pieces := ps, toks := ts }

/-- Anchored match of a compiled expression against a path: `ch c` consumes
that character, `digits` consumes one digit and then either goes on or
consumes more, and at the end the path is over, up to one optional slash
under strict slash. -/
def matchToks (strict : Bool) : List Tok → List Char → Bool
  | [], [] => true
  | [], x :: s => strict && x == '/' && s.isEmpty
  | _ :: _, [] => false
  | .ch c :: t, x :: s => c == x && matchToks strict t s
  | .digits :: t, x :: s =>
      x.isDigit && (matchToks strict t s || matchToks strict (.digits :: t) s)

/-- The path matcher of a route applied to a request path. -/
def RouteRegexp.Match (re : RouteRegexp) (path : List Char) : Bool :=
  matchToks re.strictSlash re.toks path

/-! ## Routes and routers -/

/-- A registered route: its inherited prefix matcher, its path matcher (absent
when the template failed to compile, and then the route never matches), its
method matcher if any, and its handler. -/
structure Route where
  pfx : List Char
  regexp : Option RouteRegexp
  methods : Option (List String)
  handler : HandlerFunc
deriving DecidableEq, Repr

/-- A router: the configuration its routes inherit, its middleware in the
order of the `Use` calls, and its routes in registration order. -/
structure Router where
  strictSlash : Bool
  pfx : List Char
  pathTemplate : List Char
  middlewares : List Gate
  routes : List Route
deriving DecidableEq, Repr

/-- The empty router, `mux.NewRouter()`. -/
def NewRouter : Router :=
  { strictSlash := false, pfx := [], pathTemplate := [], middlewares := [], routes := [] }

/-- Sets the strict-slash flag that new routes inherit. -/
def Router.StrictSlash (r : Router) (value : Bool) : Router :=
  { r with strictSlash := value }

/-- The configuration of a route that matches a literal path prefix, as
subrouters made from it inherit it. -/
structure PrefixRoute where
  strictSlash : Bool
  pfx : List Char
  pathTemplate : List Char
deriving DecidableEq, Repr

/-- A new route of the router for a literal path prefix: it inherits the
configuration of the router and appends the prefix to its path template. -/
def Router.PathPrefix (r : Router) (tpl : String) : PrefixRoute :=
  { strictSlash := r.strictSlash
    pfx := trimRightSlash r.pathTemplate ++ tpl.data
    pathTemplate := trimRightSlash r.pathTemplate ++ tpl.data }

/-- The subrouter of a prefix route: its routes inherit the configuration,
must match the prefix, and append their templates to it.  It starts without
middleware and routes. -/
def PrefixRoute.Subrouter (rt : PrefixRoute) : Router :=
  { strictSlash := rt.strictSlash
    pfx := rt.pfx
    pathTemplate := rt.pathTemplate
    middlewares := []
    routes := [] }

/-- Appends a middleware to the router. -/
def Router.Use (r : Router) (mw : Gate) : Router :=
  { r with middlewares := r.middlewares ++ [mw] }

/-- Registers a new route for a path template with a handler. -/
def Router.HandleFunc (r : Router) (path : String) (f : HandlerFunc) : Router :=
  { r with routes := r.routes ++
      [{ pfx := r.pfx
         regexp := newRouteRegexp (trimRightSlash r.pathTemplate ++ path.data) r.strictSlash
         methods := none
         handler := f }] }

/-- Adds a method matcher to a route. -/
def Route.Methods (rt : Route) (methods : List String) : Route :=
  { rt with methods := some methods }

/-- Applies `Route.Methods` to the route registered last, the one
`HandleFunc` has just returned. -/
def Router.Methods (r : Router) (methods : List String) : Router :=
  match r.routes.reverse with
  | [] => r
  | last :: before => { r with routes := (last.Methods methods :: before).reverse }

/-! ## Matching a request -/

/-- What a matched route hands to the server: the registered handler, or the
redirect that strict slash substitutes for it. -/
inductive Target where
  | handler (h : Handler)
  | redirect (location : List Char)
deriving DecidableEq, Repr

/-- The handler of a match: the target behind its gates, outermost first. -/
structure Chain where
  gates : List Gate
  target : Target
deriving DecidableEq, Repr

/-- The verdict of one route on a request. -/
inductive RouteVerdict where
  | noMatch
  | methodMismatch
  | matched (gates : List Gate) (target : Target)
deriving DecidableEq, Repr

/-- The path a strict-slash redirect points to: the request path with its
trailing slash removed, or with one added. -/
def slashRedirect (path : List Char) : List Char :=
  if endsWithSlash path then path.dropLast else path ++ ['/']

/-- The path matchers of a route, the inherited prefix and the path
expression: both must accept the request path. -/
def Route.pathOk (rt : Route) (path : List Char) : Bool :=
  match rt.regexp with
  | none => false
  | some re => rt.pfx.isPrefixOf path && re.Match path

/-- The method matcher of a route; a route without one accepts every method. -/
def Route.methodOk (rt : Route) (method : String) : Bool :=
  match rt.methods with
  | none => true
  | some ms => ms.contains method

/-- Whether strict slash answers a matched path by a redirect: the path and
the template differ in having a trailing slash. -/
def Route.slashMismatch (rt : Route) (path : List Char) : Bool :=
  match rt.regexp with
  | none => false
  | some re => re.strictSlash && (endsWithSlash path != endsWithSlash re.template)

/-- Matches one route.  A route whose path matchers fail is skipped; a failing
method matcher is a method mismatch; a match yields the handler of the route,
or the strict-slash redirect in its place. -/
def Route.Match (rt : Route) (req : Request) : RouteVerdict :=
  if rt.pathOk req.path.data then
    if rt.methodOk req.method then
      if rt.slashMismatch req.path.data then
        .matched [] (.redirect (slashRedirect req.path.data))
      else .matched rt.handler.gates (.handler rt.handler.target)
    else .methodMismatch
  else .noMatch

/-- The result of matching a request against a router. -/
inductive RouteMatch where
  | found (c : Chain)
  | methodNotAllowed
  | notFound
deriving DecidableEq, Repr

/-- Tries the routes in registration order.  The first route that matches
wins and its handler is wrapped in the router middleware; a method mismatch
is remembered and reported only if no later route matches. -/
def matchRoutes (middlewares : List Gate) (req : Request) : List Route → Bool → RouteMatch
  | [], mismatch => if mismatch then .methodNotAllowed else .notFound
  | rt :: rest, mismatch =>
      match rt.Match req with
      | .matched gs t => .found { gates := middlewares ++ gs, target := t }
      | .methodMismatch => matchRoutes middlewares req rest true
      | .noMatch => matchRoutes middlewares req rest mismatch

/-- Matches a request against the routes of a router. -/
def Router.Match (r : Router) (req : Request) : RouteMatch :=
  matchRoutes r.middlewares req r.routes false

/-! ## The server -/

/-- The API server: its HTTP handler (absent until the routes are
registered), its background worker and its limiter.  The worker and limiter
types belong to packages that are not among the sources and are parameters. -/
structure Server (W L : Type) where
  handler : Option Router
  worker : W
  limiter : L

/-- An option to apply to the API server. -/
abbrev ServerOption (W L : Type) := Server W L → Server W L

/-- The option that sets the background worker. -/
def WithWorker {W L : Type} (w : W) : ServerOption W L :=
  fun as => { as with worker := w }

/-- The option that sets the limiter. -/
def WithLimiter {W L : Type} (limiter : L) : ServerOption W L :=
  fun as => { as with limiter := limiter }

/-- Builds the router of the API and stores it as the handler of the server. -/
def Server.registerRoutes {W L : Type} (as : Server W L) : Server W L :=
  let root := NewRouter
  let root := root.StrictSlash true
  let router := (root.PathPrefix "/api/").Subrouter
  let router := router.Use Gate.RequireAPIKey
  let router := router.Use Gate.EnforceViewOnly
  let router := router.HandleFunc "/imap/" (.of .IMAPServer)
  let router := router.HandleFunc "/imap/tenant/{tenant_id:[0-9]+}" (.of .ImapsByTenant)
  let router := router.HandleFunc "/imap/validate" (.of .IMAPServerValidate)
  let router := router.HandleFunc "/reset" (.of .Reset)
  let router := router.HandleFunc "/campaigns/" (.of .Campaigns)
  let router := router.HandleFunc "/campaigns/summary" (.of .CampaignsSummary)
  let router := router.HandleFunc "/campaigns/{id:[0-9]+}" (.of .Campaign)
  let router := router.HandleFunc "/campaigns/{id:[0-9]+}/results" (.of .CampaignResults)
  let router := router.HandleFunc "/campaigns/{id:[0-9]+}/summary" (.of .CampaignSummary)
  let router := router.HandleFunc "/campaigns/{id:[0-9]+}/complete" (.of .CampaignComplete)
  let router := router.HandleFunc "/campaigns/tenant/{tenant_id:[0-9]+}" (.of .CampaignsByTenant)
  let router := router.HandleFunc "/groups/" (.of .Groups)
  let router := router.HandleFunc "/groups/summary" (.of .GroupsSummary)
  let router := router.HandleFunc "/groups/{id:[0-9]+}" (.of .Group)
  let router := router.HandleFunc "/groups/{id:[0-9]+}/summary" (.of .GroupSummary)
  let router := router.HandleFunc "/groups/tenant/{tenant_id:[0-9]+}" (.of .GroupsByTenant)
  let router := router.HandleFunc "/templates/" (.of .Templates)
  let router := router.HandleFunc "/templates/{id:[0-9]+}" (.of .Template)
  let router := router.HandleFunc "/templates/tenant/{tenant_id:[0-9]+}" (.of .TemplatesByTenant)
  let router := router.HandleFunc "/pages/" (.of .Pages)
  let router := router.HandleFunc "/pages/{id:[0-9]+}" (.of .Page)
  let router := router.HandleFunc "/pages/tenant/{tenant_id:[0-9]+}" (.of .PagesByTenant)
  let router := router.HandleFunc "/smtp/" (.of .SendingProfiles)
  let router := router.HandleFunc "/smtp/{id:[0-9]+}" (.of .SendingProfile)
  let router := router.HandleFunc "/smtp/tenant/{tenant_id:[0-9]+}" (.of .SmtpsByTenant)
  let router := router.HandleFunc "/users/"
    (Use (.of .Users) [Gate.RequirePermission PermissionModifySystem])
  let router := router.HandleFunc "/users/{id:[0-9]+}" (Use (.of .User) [])
  let router := router.HandleFunc "/users/tenant/{tenant_id:[0-9]+}" (.of .UsersByTenant)
  let router := router.HandleFunc "/util/send_test_email" (.of .SendTestEmail)
  let router := router.HandleFunc "/import/group" (.of .ImportGroup)
  let router := router.HandleFunc "/import/email" (.of .ImportEmail)
  let router := router.HandleFunc "/import/site" (.of .ImportSite)
  let router := router.HandleFunc "/webhooks/"
    (Use (.of .Webhooks) [Gate.RequirePermission PermissionModifySystem])
  let router := router.HandleFunc "/webhooks/{id:[0-9]+}/validate"
    (Use (.of .ValidateWebhook) [Gate.RequirePermission PermissionModifySystem])
  let router := router.HandleFunc "/webhooks/{id:[0-9]+}"
    (Use (.of .Webhook) [Gate.RequirePermission PermissionModifySystem])
  let router := router.HandleFunc "/webhooks/tenant/{tenant_id:[0-9]+}"
    (Use (.of .WebhooksByTenant) [Gate.RequirePermission PermissionModifySystem])
  let router := (router.HandleFunc "/tenants" (.of .Tenants)).Methods ["GET", "POST"]
  let router := (router.HandleFunc "/tenants/{id:[0-9]+}" (.of .Tenant)).Methods
    ["GET", "PUT", "DELETE"]
  { as with handler := some router }

/-- Returns a new API server with the options applied, given what
`worker.New()` and `ratelimit.NewPostLimiter()` return.  A failing
`worker.New()` is fatal: `log.Fatalf` ends the process and no server is
returned, which is the result `none`. -/
def NewServer {W L : Type} (workerNew : Except String W) (newPostLimiter : L)
    (options : List (ServerOption W L)) : Option (Server W L) :=
  match workerNew with
  | .error _ => none
  | .ok defaultWorker =>
      let defaultLimiter := newPostLimiter
      let as : Server W L := { handler := none, worker := defaultWorker, limiter := defaultLimiter }
      let as := options.foldl (fun as opt => opt as) as
      some as.registerRoutes

/-- The router that `registerRoutes` builds; it does not depend on the server
it is stored in. -/
def apiRouter : Router :=
  ((Server.registerRoutes ({ handler := none, worker := (), limiter := () } : Server Unit Unit)).handler).getD
    NewRouter

/-! ## Gate chains and serving -/

/-- What a gate sees and passes on: the request and the principal resolved so
far. -/
structure Ctx where
  req : Request
  user : Option Principal
deriving DecidableEq, Repr

/-- The two responses with which a gate ends a request. -/
inductive Rejection where
  | Unauthenticated
  | Forbidden
deriving DecidableEq, Repr

/-- The behaviour of the gates: each either passes a context on or rejects. -/
abbrev GateSem := Gate → Ctx → Except Rejection Ctx

/-- Runs gates in order; the first rejection ends the chain. -/
def runGates (sem : GateSem) : List Gate → Ctx → Except Rejection Ctx
  | [], ctx => .ok ctx
  | g :: gs, ctx =>
      match sem g ctx with
      | .error e => .error e
      | .ok ctx1 => runGates sem gs ctx1

/-- How the router disposes of a request. -/
inductive Outcome where
  | invoke (h : Handler) (ctx : Ctx)
  | redirect (location : List Char)
  | rejected (e : Rejection)
  | methodNotAllowed
  | notFound
deriving DecidableEq, Repr

/-- Runs the handler of a match: its gates, then its target. -/
def Chain.serve (sem : GateSem) (c : Chain) (req : Request) : Outcome :=
  match runGates sem c.gates { req := req, user := none } with
  | .error e => .rejected e
  | .ok ctx =>
      match c.target with
      | .handler h => .invoke h ctx
      | .redirect loc => .redirect loc

/-- Serves a request on a router: the matched handler is run, a method
mismatch is answered 405, no match 404. -/
def Router.ServeHTTP (r : Router) (sem : GateSem) (req : Request) : Outcome :=
  match r.Match req with
  | .found c => c.serve sem req
  | .methodNotAllowed => .methodNotAllowed
  | .notFound => .notFound

/-- Serves a request on the server by its handler; there is no result when
the handler is absent. -/
def Server.ServeHTTP {W L : Type} (as : Server W L) (sem : GateSem) (req : Request) :
    Option Outcome :=
  as.handler.map (fun h => h.ServeHTTP sem req)

/-- The methods the View-Only gate treats as mutating (spec, section 4.2). -/
def mutatingMethods : List String := ["POST", "PUT", "PATCH", "DELETE"]

/-- Modelled from the spec: the gates `mid.RequireAPIKey`, `mid.EnforceViewOnly`
and `mid.RequirePermission` of the `middleware` package, which is not among
the sources (spec, sections 4.1 to 4.3).  Authentication looks the presented
key up in the principal store and attaches the principal, or rejects as
unauthenticated.  View-Only rejects as forbidden a read-only principal using a
mutating method.  Permission passes iff the capability set of the principal
contains the required capability, and otherwise rejects as forbidden.  A gate
after Authentication that finds no principal rejects as unauthenticated. -/
def specGates (store : String → Option Principal) : GateSem
  | .RequireAPIKey, ctx =>
      match ctx.req.apiKey.bind store with
      | some p => .ok { ctx with user := some p }
      | none => .error .Unauthenticated
  | .EnforceViewOnly, ctx =>
      match ctx.user with
      | none => .error .Unauthenticated
      | some p =>
          if p.readOnly && mutatingMethods.contains ctx.req.method then .error .Forbidden
          else .ok ctx
  | .RequirePermission c, ctx =>
      match ctx.user with
      | none => .error .Unauthenticated
      | some p => if p.capabilities.contains c then .ok ctx else .error .Forbidden

/-! ## The route table -/

/-- A route descriptor: path template, allowed methods (none: all), ordered
gate list, handler. -/
structure RouteDescriptor where
  template : String
  methods : Option (List String)
  gates : List Gate
  handler : Handler
deriving DecidableEq, Repr

/-- The full path template of a route. -/
def Route.template (rt : Route) : String :=
  match rt.regexp with
  | none => ""
  | some re => String.mk re.template

/-- The gates a request passes before the handler of this route: the router
middleware, then the wrappers of the handler. -/
def Router.gatesOf (r : Router) (rt : Route) : List Gate :=
  r.middlewares ++ rt.handler.gates

/-- The descriptor of a route of a router. -/
def Router.describe (r : Router) (rt : Route) : RouteDescriptor :=
  { template := rt.template, methods := rt.methods, gates := r.gatesOf rt,
    handler := rt.handler.target }

/-- The route table of a router, in registration order. -/
def Router.table (r : Router) : List RouteDescriptor :=
  r.routes.map r.describe

/-- The route table of a server; empty before the routes are registered. -/
def Server.table {W L : Type} (as : Server W L) : List RouteDescriptor :=
  match as.handler with
  | none => []
  | some r => r.table

/-- Whether a gate is a Permission gate. -/
def Gate.isPermission : Gate → Bool
  | .RequirePermission _ => true
  | _ => false

/-- Whether a route has a variable of the given name in its template. -/
def Route.hasVar (rt : Route) (name : String) : Bool :=
  match rt.regexp with
  | none => false
  | some re => re.pieces.any (fun p =>
      match p with
      | .var n _ => n == name.data
      | .lit _ => false)

/-! ## Auxiliary definitions for the routing proofs -/

/-- The compiled path expression of a route; empty when there is none. -/
def Route.toks (rt : Route) : List Tok :=
  match rt.regexp with
  | none => []
  | some re => re.toks

/-- The parsed template of a route; empty when there is none. -/
def Route.pieces (rt : Route) : List Piece :=
  match rt.regexp with
  | none => []
  | some re => re.pieces

/-- A shape condition on compiled expressions under which the expression that
matches a path is determined by the path: no literal is a digit, no two
variables are adjacent, and the expression does not end in a literal slash. -/
def wfToks : List Tok → Bool
  | [] => true
  | .ch c :: t => !c.isDigit && (c != '/' || !t.isEmpty) && wfToks t
  | .digits :: t =>
      (match t with
       | .digits :: _ => false
       | _ => true) && wfToks t

/-- A route whose template compiled under strict slash to an expression of
the shape `wfToks`. -/
def Route.wellFormed (rt : Route) : Bool :=
  match rt.regexp with
  | none => false
  | some re => re.strictSlash && wfToks re.toks

/-- The number of variables of a compiled expression. -/
def varCount : List Tok → Nat
  | [] => 0
  | .ch _ :: t => varCount t
  | .digits :: t => varCount t + 1

/-- The path obtained from a compiled expression by writing a value for each
variable, in order. -/
def fill : List Tok → List (List Char) → List Char
  | [], _ => []
  | .ch c :: t, vs => c :: fill t vs
  | .digits :: t, [] => fill t []
  | .digits :: t, v :: vs => v ++ fill t vs

/-- A non-empty sequence of decimal digits. -/
def isDigits (v : List Char) : Bool :=
  !v.isEmpty && v.all Char.isDigit

/-- A principal store that knows one key. -/
def keyStore (key : String) (p : Principal) : String → Option Principal :=
  fun k => if k = key then some p else none

/-- Whether the template of a descriptor lies under a resource prefix of the
API, such as `/users`. -/
def RouteDescriptor.under (d : RouteDescriptor) (resource : String) : Bool :=
  ("/api" ++ resource).data.isPrefixOf d.template.data

/-- Whether a descriptor has a Permission gate in its gate list. -/
def RouteDescriptor.hasPermissionGate (d : RouteDescriptor) : Bool :=
  d.gates.any Gate.isPermission

/-- A principal without capabilities that is not read-only. -/
def plainPrincipal : Principal :=
  { id := 1, tenant := 1, capabilities := [], readOnly := false }

/-- A principal holding modify-system that is not read-only. -/
def adminPrincipal : Principal :=
  { id := 2, tenant := 1, capabilities := [PermissionModifySystem], readOnly := false }

/-- Whether a piece of a template is a literal, or a variable named `id` or
`tenant_id` with the pattern `[0-9]+`. -/
def Piece.isDigitVar : Piece → Bool
  | .lit _ => true
  | .var n p => p == digitsPattern && (n == "id".data || n == "tenant_id".data)

/-- The route that `registerRoutes` registers for `/campaigns/{id:[0-9]+}`. -/
def campaignItemRoute : Route :=
  { pfx := "/api/".data
    regexp := newRouteRegexp "/api/campaigns/{id:[0-9]+}".data true
    methods := none
    handler := .of .Campaign }

/-- The route that `registerRoutes` registers for `/tenants`. -/
def tenantsRoute : Route :=
  { pfx := "/api/".data
    regexp := newRouteRegexp "/api/tenants".data true
    methods := some ["GET", "POST"]
    handler := .of .Tenants }

/-! ## Admission control -/

/-- Modelled from the spec: the Admission Window of one Rate Key (section 3),
as the refill state of a token bucket: the tokens left and the start of the
current refill interval.  It belongs to the `ratelimit` package, which is not
among the sources. -/
structure Window where
  tokens : Nat
  last : Nat
deriving DecidableEq, Repr

/-- Modelled from the spec: `ratelimit.PostLimiter`, the Admission Controller
(section 4.4), which is not among the sources, as a token bucket with a burst
capacity, a refill amount per interval, the interval length in clock ticks,
and one window per Rate Key.  Reclaiming idle windows is left out. -/
structure PostLimiter where
  burst : Nat
  refill : Nat
  interval : Nat
  windows : String → Option Window

/-- A limiter with the given configuration and no windows yet. -/
def PostLimiter.configured (burst refill interval : Nat) : PostLimiter :=
  { burst := burst, refill := refill, interval := interval, windows := fun _ => none }

/-- Modelled from the spec: the window of a key at a time, before a token is
taken.  A key seen for the first time gets a full bucket; otherwise the bucket
gains the refill amount for every whole interval elapsed, up to the burst
capacity. -/
def PostLimiter.window (l : PostLimiter) (key : String) (now : Nat) : Window :=
  match l.windows key with
  | none => { tokens := l.burst, last := now }
  | some w =>
      { tokens := min l.burst (w.tokens + (now - w.last) / l.interval * l.refill)
        last := w.last + (now - w.last) / l.interval * l.interval }

/-- Modelled from the spec: `admit(rateKey)` of the Admission Controller
(section 4.4): allowed, taking one token, when the bucket of the key has one;
denied otherwise.  Only the window of that key changes. -/
def PostLimiter.Allow (l : PostLimiter) (key : String) (now : Nat) : Bool × PostLimiter :=
  if 0 < (l.window key now).tokens then
    (true,
      { burst := l.burst, refill := l.refill, interval := l.interval
        windows := fun k =>
          if k = key then some ⟨(l.window key now).tokens - 1, (l.window key now).last⟩
          else l.windows k })
  else
    (false,
      { burst := l.burst, refill := l.refill, interval := l.interval
        windows := fun k => if k = key then some (l.window key now) else l.windows k })

/-- The responses of the gateway (spec, section 7).  `Proceeded h` stands for
the body of handler `h` running, with whatever persistence effect it has. -/
inductive Response where
  | Proceeded (h : Handler)
  | MovedPermanently (location : List Char)
  | Unauthenticated
  | Forbidden
  | RateLimited
  | MethodNotAllowed
  | NotFound
  | InternalError
deriving DecidableEq, Repr

/-- Modelled from the spec: the Rate Key of a request, derived from its API
key (section 3). -/
def rateKey (ctx : Ctx) : String :=
  ctx.req.apiKey.getD ""

/-- Modelled from the spec: what an invoked handler does first (section 2,
control flow, case iii).  The handler methods are defined in files that are not
among the sources.  For a mutating method the handler consults the limiter of
the server and rejects an over-rate caller as rate limited before any
persistence effect; otherwise, and for the other methods, its body runs. -/
def Server.respond {W : Type} (as : Server W PostLimiter) (store : String → Option Principal)
    (now : Nat) (req : Request) : Response × Server W PostLimiter :=
  match as.ServeHTTP (specGates store) req with
  | none => (.InternalError, as)
  | some (.invoke h ctx) =>
      if mutatingMethods.contains req.method then
        if (as.limiter.Allow (rateKey ctx) now).1 then
          (.Proceeded h, { as with limiter := (as.limiter.Allow (rateKey ctx) now).2 })
        else
          (.RateLimited, { as with limiter := (as.limiter.Allow (rateKey ctx) now).2 })
      else (.Proceeded h, as)
  | some (.redirect loc) => (.MovedPermanently loc, as)
  | some (.rejected .Unauthenticated) => (.Unauthenticated, as)
  | some (.rejected .Forbidden) => (.Forbidden, as)
  | some .methodNotAllowed => (.MethodNotAllowed, as)
  | some .notFound => (.NotFound, as)

/-- Serves timed requests one after the other, passing the server on. -/
def Server.respondAll {W : Type} (as : Server W PostLimiter)
    (store : String → Option Principal) : List (Nat × Request) → List Response × Server W PostLimiter
  | [] => ([], as)
  | (now, req) :: rest =>
      ((as.respond store now req).1 :: ((as.respond store now req).2.respondAll store rest).1,
       ((as.respond store now req).2.respondAll store rest).2)

/-- A `POST /api/users/` with the given key, at the given time. -/
def postUsers (key : String) (now : Nat) : Nat × Request :=
  (now, { method := "POST", path := "/api/users/", apiKey := some key })

end Gophish

/-! ## Path matching -/

namespace Gophish

theorem matchToks_nil_path (b : Bool) (t : List Tok) (h : matchToks b t [] = true) : t = [] := by
  cases t with
  | nil => rfl
  | cons a t => simp [matchToks] at h

theorem wfToks_tail (a : Tok) (t : List Tok) (h : wfToks (a :: t) = true) : wfToks t = true := by
  cases a with
  | ch c => simp [wfToks] at h; exact h.2
  | digits => simp [wfToks] at h; exact h.2

/-- Two well-shaped expressions that match the same path are the same. -/
theorem matchToks_unique (b : Bool) :
    ∀ (s : List Char) (t1 t2 : List Tok), wfToks t1 = true → wfToks t2 = true →
      matchToks b t1 s = true → matchToks b t2 s = true → t1 = t2 := by
  intro s
  induction s with
  | nil =>
      intro t1 t2 _ _ h1 h2
      rw [matchToks_nil_path b t1 h1, matchToks_nil_path b t2 h2]
  | cons x s ih =>
      intro t1 t2 w1 w2 h1 h2
      cases t1 with
      | nil =>
          cases t2 with
          | nil => rfl
          | cons a2 t2 =>
              exfalso
              simp [matchToks] at h1
              obtain ⟨⟨_, hx⟩, hs⟩ := h1
              subst hx; subst hs
              cases a2 with
              | ch c =>
                  simp [matchToks] at h2
                  have ht := matchToks_nil_path b t2 h2.2
                  subst ht
                  have hc := h2.1
                  subst hc
                  simp [wfToks] at w2
              | digits =>
                  simp [matchToks] at h2
      | cons a1 t1 =>
          cases t2 with
          | nil =>
              exfalso
              simp [matchToks] at h2
              obtain ⟨⟨_, hx⟩, hs⟩ := h2
              subst hx; subst hs
              cases a1 with
              | ch c =>
                  simp [matchToks] at h1
                  have ht := matchToks_nil_path b t1 h1.2
                  subst ht
                  have hc := h1.1
                  subst hc
                  simp [wfToks] at w1
              | digits =>
                  simp [matchToks] at h1
          | cons a2 t2 =>
              have w1t := wfToks_tail a1 t1 w1
              have w2t := wfToks_tail a2 t2 w2
              cases a1 with
              | ch c1 =>
                  cases a2 with
                  | ch c2 =>
                      simp [matchToks] at h1 h2
                      rw [ih t1 t2 w1t w2t h1.2 h2.2, h1.1, h2.1]
                  | digits =>
                      exfalso
                      simp [matchToks] at h1 h2
                      simp [wfToks] at w1
                      have := w1.1.1
                      rw [h1.1] at this
                      rw [h2.1] at this
                      exact Bool.noConfusion this
              | digits =>
                  cases a2 with
                  | ch c2 =>
                      exfalso
                      simp [matchToks] at h1 h2
                      simp [wfToks] at w2
                      have := w2.1.1
                      rw [h2.1] at this
                      rw [h1.1] at this
                      exact Bool.noConfusion this
                  | digits =>
                      simp [matchToks] at h1 h2
                      rcases h1.2 with m1 | m1 <;> rcases h2.2 with m2 | m2
                      · rw [ih t1 t2 w1t w2t m1 m2]
                      · have e := ih t1 (.digits :: t2) w1t w2 m1 m2
                        subst e
                        simp [wfToks] at w1
                      · have e := ih (.digits :: t1) t2 w1 w2t m1 m2
                        subst e
                        simp [wfToks] at w2
                      · exact ih (.digits :: t1) (.digits :: t2) w1 w2 m1 m2

theorem matchToks_digits_run (b : Bool) (t : List Tok) (rest : List Char) :
    ∀ v : List Char, isDigits v = true → matchToks b t rest = true →
      matchToks b (.digits :: t) (v ++ rest) = true := by
  intro v
  induction v with
  | nil => intro h; simp [isDigits] at h
  | cons x v ih =>
      intro hv hm
      simp [isDigits] at hv
      cases v with
      | nil => simp [matchToks, hv.1, hm]
      | cons y v =>
          have hyv : isDigits (y :: v) = true := by
            simpa [isDigits] using hv.2
          have := ih hyv hm
          show matchToks b (.digits :: t) (x :: ((y :: v) ++ rest)) = true
          rw [matchToks, this, hv.1]
          simp

/-- Completeness of matching: an expression matches the path written from it
with digit sequences as values, followed by anything the empty expression
matches. -/
theorem matchToks_fill (b : Bool) (e : List Char) (he : matchToks b [] e = true) :
    ∀ (t : List Tok) (vals : List (List Char)), vals.length = varCount t →
      (∀ v ∈ vals, isDigits v = true) → matchToks b t (fill t vals ++ e) = true := by
  intro t
  induction t with
  | nil => intro vals _ _; simpa [fill] using he
  | cons a t ih =>
      intro vals hl hv
      cases a with
      | ch c =>
          simp only [fill, List.cons_append, matchToks, beq_self_eq_true, Bool.true_and]
          exact ih vals (by simpa [varCount] using hl) hv
      | digits =>
          cases vals with
          | nil => simp [varCount] at hl
          | cons v vs =>
              simp only [fill, List.append_assoc]
              apply matchToks_digits_run b t _ v (hv v (List.mem_cons_self _ _))
              exact ih vs (by simpa [varCount] using hl)
                (fun w hw => hv w (List.mem_cons_of_mem _ hw))

/-- Soundness of matching: a matched path is the expression with a non-empty
digit sequence written for every variable, up to one trailing slash under
strict slash. -/
theorem matchToks_sound (b : Bool) :
    ∀ (s : List Char) (t : List Tok), matchToks b t s = true →
      ∃ vals : List (List Char), vals.length = varCount t ∧ (∀ v ∈ vals, isDigits v = true) ∧
        (s = fill t vals ∨ (b = true ∧ s = fill t vals ++ ['/'])) := by
  intro s
  induction s with
  | nil =>
      intro t h
      rw [matchToks_nil_path b t h]
      exact ⟨[], rfl, by simp, Or.inl rfl⟩
  | cons x s ih =>
      intro t h
      cases t with
      | nil =>
          simp [matchToks] at h
          obtain ⟨⟨hb, hx⟩, hs⟩ := h
          subst hx; subst hs
          exact ⟨[], rfl, by simp, Or.inr ⟨hb, rfl⟩⟩
      | cons a t =>
          cases a with
          | ch c =>
              simp [matchToks] at h
              obtain ⟨vals, hl, hv, hs⟩ := ih t h.2
              refine ⟨vals, by simpa [varCount] using hl, hv, ?_⟩
              rcases hs with hs | ⟨hb, hs⟩
              · left; simp [fill, h.1, hs]
              · right; exact ⟨hb, by simp [fill, h.1, hs]⟩
          | digits =>
              simp [matchToks] at h
              rcases h.2 with m | m
              · obtain ⟨vals, hl, hv, hs⟩ := ih t m
                refine ⟨[x] :: vals, by simp [varCount, hl], ?_, ?_⟩
                · intro v hvm
                  rcases List.mem_cons.mp hvm with e | e
                  · subst e; simp [isDigits, h.1]
                  · exact hv v e
                · rcases hs with hs | ⟨hb, hs⟩
                  · left; simp [fill, hs]
                  · right; exact ⟨hb, by simp [fill, hs]⟩
              · obtain ⟨vals, hl, hv, hs⟩ := ih (.digits :: t) m
                cases vals with
                | nil => simp [varCount] at hl
                | cons v vs =>
                    refine ⟨(x :: v) :: vs, by simpa [varCount] using hl, ?_, ?_⟩
                    · intro w hw
                      rcases List.mem_cons.mp hw with e | e
                      · subst e
                        have := hv v (List.mem_cons_self _ _)
                        simp [isDigits] at this
                        simp [isDigits, h.1]
                        exact this.2
                      · exact hv w (List.mem_cons_of_mem _ e)
                    · rcases hs with hs | ⟨hb, hs⟩
                      · left; simp [fill, hs]
                      · right; exact ⟨hb, by simp [fill, hs]⟩

/-! ## Dispatch -/

/-- Routes whose path matchers reject the request play no part in dispatch. -/
theorem matchRoutes_filter (mw : List Gate) (req : Request) :
    ∀ (rs : List Route) (m : Bool),
      matchRoutes mw req rs m =
        matchRoutes mw req (rs.filter (fun rt => rt.pathOk req.path.data)) m := by
  intro rs
  induction rs with
  | nil => intro m; rfl
  | cons rt rest ih =>
      intro m
      by_cases hp : rt.pathOk req.path.data = true
      · simp only [List.filter_cons, hp, ↓reduceIte]
        simp only [matchRoutes]
        cases rt.Match req with
        | noMatch => exact ih m
        | methodMismatch => exact ih true
        | matched gs t => rfl
      · have hm : rt.Match req = .noMatch := by
          unfold Route.Match
          rw [if_neg hp]
        simp only [List.filter_cons, hp]
        simp only [matchRoutes, hm]
        exact ih m

theorem filter_eq_singleton {α : Type} (p : α → Bool) (a : α) :
    ∀ l : List α, l.Nodup → a ∈ l → p a = true → (∀ x ∈ l, p x = true → x = a) →
      l.filter p = [a] := by
  intro l
  induction l with
  | nil => intro _ h; simp at h
  | cons b l ih =>
      intro hn ha hp hu
      rw [List.nodup_cons] at hn
      by_cases hb : b = a
      · subst hb
        rw [List.filter_cons_of_pos hp]
        have : l.filter p = [] := by
          rw [List.filter_eq_nil_iff]
          intro x hx hpx
          have := hu x (List.mem_cons_of_mem _ hx) (by simpa using hpx)
          subst this
          exact hn.1 hx
        rw [this]
      · have hal : a ∈ l := by
          rcases List.mem_cons.mp ha with e | e
          · exact absurd e.symm hb
          · exact e
        have hpb : ¬ p b = true := fun h => hb (hu b (List.mem_cons_self _ _) h)
        rw [List.filter_cons_of_neg hpb]
        exact ih hn.2 hal hp (fun x hx => hu x (List.mem_cons_of_mem _ hx))

/-! ## Facts about the route table, by evaluation -/

set_option maxRecDepth 100000 in
theorem routes_wellFormed : ∀ rt ∈ apiRouter.routes, rt.wellFormed = true := by
  decide

set_option maxRecDepth 100000 in
theorem routes_toks_nodup : (apiRouter.routes.map Route.toks).Nodup := by
  decide

theorem routes_nodup : apiRouter.routes.Nodup :=
  List.Nodup.of_map _ routes_toks_nodup

theorem pathOk_matchToks (rt : Route) (path : List Char) (hw : rt.wellFormed = true)
    (hp : rt.pathOk path = true) :
    matchToks true rt.toks path = true ∧ wfToks rt.toks = true := by
  unfold Route.pathOk at hp
  unfold Route.wellFormed at hw
  unfold Route.toks
  cases hre : rt.regexp with
  | none => rw [hre] at hp; exact absurd hp (by simp)
  | some re =>
      rw [hre] at hp hw
      simp only [Bool.and_eq_true] at hp hw
      simp only [RouteRegexp.Match, hw.1] at hp
      exact ⟨hp.2, hw.2⟩

/-- At most one registered route accepts a given path. -/
theorem routes_disjoint (path : List Char) (rt1 rt2 : Route)
    (h1 : rt1 ∈ apiRouter.routes) (h2 : rt2 ∈ apiRouter.routes)
    (p1 : rt1.pathOk path = true) (p2 : rt2.pathOk path = true) : rt1 = rt2 := by
  obtain ⟨m1, w1⟩ := pathOk_matchToks rt1 path (routes_wellFormed rt1 h1) p1
  obtain ⟨m2, w2⟩ := pathOk_matchToks rt2 path (routes_wellFormed rt2 h2) p2
  have ht := matchToks_unique true path rt1.toks rt2.toks w1 w2 m1 m2
  exact List.inj_on_of_nodup_map routes_toks_nodup h1 h2 ht

theorem filter_pathOk_of_mem (rt : Route) (path : List Char) (hrt : rt ∈ apiRouter.routes)
    (hp : rt.pathOk path = true) :
    apiRouter.routes.filter (fun r => r.pathOk path) = [rt] :=
  filter_eq_singleton (fun r => r.pathOk path) rt apiRouter.routes routes_nodup hrt hp
    (fun x hx hpx => routes_disjoint path x rt hx hrt hpx hp)

theorem filter_pathOk_length (path : List Char) :
    (apiRouter.routes.filter (fun r => r.pathOk path)).length ≤ 1 := by
  cases hf : apiRouter.routes.filter (fun r => r.pathOk path) with
  | nil => simp
  | cons a l =>
      have ha : a ∈ apiRouter.routes.filter (fun r => r.pathOk path) := by
        rw [hf]; exact List.mem_cons_self _ _
      rw [List.mem_filter] at ha
      have := filter_pathOk_of_mem a path ha.1 ha.2
      rw [this] at hf
      rw [← hf]
      simp

/-- The verdict of the router on a request whose path a registered route
accepts: that route decides, by its method matcher and strict slash. -/
theorem match_of_route (rt : Route) (req : Request) (hrt : rt ∈ apiRouter.routes)
    (hp : rt.pathOk req.path.data = true) :
    apiRouter.Match req =
      if rt.methodOk req.method then
        if rt.slashMismatch req.path.data then
          .found ⟨apiRouter.middlewares, .redirect (slashRedirect req.path.data)⟩
        else .found ⟨apiRouter.gatesOf rt, .handler rt.handler.target⟩
      else .methodNotAllowed := by
  unfold Router.Match
  rw [matchRoutes_filter, filter_pathOk_of_mem rt req.path.data hrt hp]
  simp only [matchRoutes, Route.Match, hp, if_true]
  by_cases hm : rt.methodOk req.method = true
  · by_cases hs : rt.slashMismatch req.path.data = true
    · simp [hm, hs]
    · simp [hm, hs, Router.gatesOf]
  · simp [hm]

/-- No registered route accepts the path: the router finds nothing. -/
theorem match_of_no_route (req : Request)
    (hp : apiRouter.routes.filter (fun r => r.pathOk req.path.data) = []) :
    apiRouter.Match req = .notFound := by
  unfold Router.Match
  rw [matchRoutes_filter, hp]
  rfl

theorem matchRoutes_found (mw : List Gate) (req : Request) :
    ∀ (rs : List Route) (m : Bool) (c : Chain), matchRoutes mw req rs m = .found c →
      ∃ rt ∈ rs, ∃ gs t, rt.Match req = .matched gs t ∧ c = ⟨mw ++ gs, t⟩ := by
  intro rs
  induction rs with
  | nil =>
      intro m c h
      cases m <;> simp [matchRoutes] at h
  | cons rt rest ih =>
      intro m c h
      simp only [matchRoutes] at h
      cases hm : rt.Match req with
      | noMatch =>
          rw [hm] at h
          obtain ⟨r, hr, x⟩ := ih m c h
          exact ⟨r, List.mem_cons_of_mem _ hr, x⟩
      | methodMismatch =>
          rw [hm] at h
          obtain ⟨r, hr, x⟩ := ih true c h
          exact ⟨r, List.mem_cons_of_mem _ hr, x⟩
      | matched gs t =>
          rw [hm] at h
          simp only [RouteMatch.found.injEq] at h
          exact ⟨rt, List.mem_cons_self _ _, gs, t, hm, h.symm⟩

/-- A handler is invoked only through a route that accepts the request, after
all gates of that route have passed. -/
theorem serve_invoke_elim (r : Router) (sem : GateSem) (req : Request) (h : Handler) (ctx : Ctx)
    (hs : r.ServeHTTP sem req = .invoke h ctx) :
    ∃ rt ∈ r.routes, rt.handler.target = h ∧ rt.pathOk req.path.data = true ∧
      rt.methodOk req.method = true ∧ rt.slashMismatch req.path.data = false ∧
      runGates sem (r.gatesOf rt) ⟨req, none⟩ = .ok ctx := by
  unfold Router.ServeHTTP at hs
  cases hm : r.Match req with
  | methodNotAllowed => rw [hm] at hs; exact absurd hs (by simp)
  | notFound => rw [hm] at hs; exact absurd hs (by simp)
  | found c =>
      rw [hm] at hs
      simp only [Chain.serve] at hs
      obtain ⟨rt, hrt, gs, t, hmatch, hc⟩ := matchRoutes_found r.middlewares req r.routes false c hm
      refine ⟨rt, hrt, ?_⟩
      subst hc
      cases hg : runGates sem (r.middlewares ++ gs) ⟨req, none⟩ with
      | error e => rw [hg] at hs; exact absurd hs (by simp)
      | ok ctx1 =>
          rw [hg] at hs
          cases t with
          | redirect loc => exact absurd hs (by simp)
          | handler h1 =>
              simp only [Outcome.invoke.injEq] at hs
              obtain ⟨e1, e2⟩ := hs
              subst e1; subst e2
              unfold Route.Match at hmatch
              by_cases hp : rt.pathOk req.path.data = true
              · by_cases hme : rt.methodOk req.method = true
                · by_cases hsl : rt.slashMismatch req.path.data = true
                  · simp [hp, hme, hsl] at hmatch
                  · simp only [hp, hme, hsl, if_true] at hmatch
                    simp only [Bool.false_eq_true, if_false, RouteVerdict.matched.injEq,
                      Target.handler.injEq] at hmatch
                    obtain ⟨e1, e2⟩ := hmatch
                    subst e1
                    refine ⟨e2, hp, hme, by simpa using hsl, ?_⟩
                    exact hg
                · simp [hp, hme] at hmatch
              · simp [hp] at hmatch

/-- The outcome of a request that a registered route accepts with its method
and without a strict-slash redirect: the gates of the route, then its handler. -/
theorem serve_of_route (rt : Route) (sem : GateSem) (req : Request)
    (hrt : rt ∈ apiRouter.routes) (hp : rt.pathOk req.path.data = true)
    (hm : rt.methodOk req.method = true) (hs : rt.slashMismatch req.path.data = false) :
    apiRouter.ServeHTTP sem req =
      match runGates sem (apiRouter.gatesOf rt) ⟨req, none⟩ with
      | .error e => .rejected e
      | .ok ctx => .invoke rt.handler.target ctx := by
  unfold Router.ServeHTTP
  rw [match_of_route rt req hrt hp]
  simp only [hm, hs, if_true, Bool.false_eq_true, if_false, Chain.serve]

/-! ## Gate chains of the registered routes -/

theorem runGates_base (sem : GateSem) (gs : List Gate) (c0 c1 c2 : Ctx)
    (h1 : sem .RequireAPIKey c0 = .ok c1) (h2 : sem .EnforceViewOnly c1 = .ok c2) :
    runGates sem (.RequireAPIKey :: .EnforceViewOnly :: gs) c0 = runGates sem gs c2 := by
  simp [runGates, h1, h2]

theorem specGates_auth (store : String → Option Principal) (req : Request) (key : String)
    (p : Principal) (hk : req.apiKey = some key) (hs : store key = some p) :
    specGates store .RequireAPIKey ⟨req, none⟩ = .ok ⟨req, some p⟩ := by
  simp [specGates, hk, hs]

theorem specGates_view (store : String → Option Principal) (req : Request) (p : Principal)
    (h : (p.readOnly && mutatingMethods.contains req.method) = false) :
    specGates store .EnforceViewOnly ⟨req, some p⟩ = .ok ⟨req, some p⟩ := by
  simp only [specGates, h]
  rfl

set_option maxRecDepth 100000 in
theorem table_gate_shapes :
    ∀ rt ∈ apiRouter.routes,
      apiRouter.gatesOf rt = [.RequireAPIKey, .EnforceViewOnly] ∨
      apiRouter.gatesOf rt =
        [.RequireAPIKey, .EnforceViewOnly, .RequirePermission PermissionModifySystem] := by
  decide

/-- C1: in the route table built by `registerRoutes` every gate list is
Authentication, View-Only, and then the Permission gate if the route has one;
and whenever a handler is invoked, the Authentication gate has passed on the
incoming request, the View-Only gate has passed on its result, and the
Permission gate, if any, after that. -/
theorem gate_chain_order :
    (∀ d ∈ apiRouter.table,
      d.gates = [.RequireAPIKey, .EnforceViewOnly] ∨
      d.gates = [.RequireAPIKey, .EnforceViewOnly, .RequirePermission PermissionModifySystem]) ∧
    (∀ (sem : GateSem) (req : Request) (h : Handler) (ctx : Ctx),
      apiRouter.ServeHTTP sem req = .invoke h ctx →
        ∃ c1 c2, sem .RequireAPIKey ⟨req, none⟩ = .ok c1 ∧ sem .EnforceViewOnly c1 = .ok c2 ∧
          (ctx = c2 ∨ sem (.RequirePermission PermissionModifySystem) c2 = .ok ctx)) := by
  constructor
  · intro d hd
    simp only [Router.table, List.mem_map] at hd
    obtain ⟨rt, hrt, rfl⟩ := hd
    exact table_gate_shapes rt hrt
  · intro sem req h ctx hs
    obtain ⟨rt, hrt, _, _, _, _, hg⟩ := serve_invoke_elim apiRouter sem req h ctx hs
    have hroute := table_gate_shapes rt hrt
    cases h1 : sem .RequireAPIKey ⟨req, none⟩ with
    | error e => rcases hroute with e1 | e1 <;> rw [e1] at hg <;> simp [runGates, h1] at hg
    | ok c1 =>
        cases h2 : sem .EnforceViewOnly c1 with
        | error e => rcases hroute with e1 | e1 <;> rw [e1] at hg <;> simp [runGates, h1, h2] at hg
        | ok c2 =>
            refine ⟨c1, c2, rfl, h2, ?_⟩
            rcases hroute with e1 | e1
            · rw [e1, runGates_base sem [] _ c1 c2 h1 h2] at hg
              simp only [runGates, Except.ok.injEq] at hg
              exact Or.inl hg.symm
            · rw [e1, runGates_base sem _ _ c1 c2 h1 h2] at hg
              right
              cases h3 : sem (.RequirePermission PermissionModifySystem) c2 with
              | error e => simp [runGates, h3] at hg
              | ok c3 =>
                  simp only [runGates, h3, Except.ok.injEq] at hg
                  rw [hg]

/-- The gates ahead of the Users handler, on a concrete admin request. -/
theorem gate_chain_order_witness :
    ∃ c1 c2,
      specGates (keyStore "A" adminPrincipal) .RequireAPIKey
        ⟨⟨"POST", "/api/users/", some "A"⟩, none⟩ = .ok c1 ∧
      specGates (keyStore "A" adminPrincipal) .EnforceViewOnly c1 = .ok c2 ∧
      ((⟨⟨"POST", "/api/users/", some "A"⟩, some adminPrincipal⟩ : Ctx) = c2 ∨
        specGates (keyStore "A" adminPrincipal)
          (.RequirePermission PermissionModifySystem) c2 =
            .ok ⟨⟨"POST", "/api/users/", some "A"⟩, some adminPrincipal⟩) :=
  gate_chain_order.2 (specGates (keyStore "A" adminPrincipal))
    ⟨"POST", "/api/users/", some "A"⟩ .Users
    ⟨⟨"POST", "/api/users/", some "A"⟩, some adminPrincipal⟩ (by decide)

/-! ## The Permission gate on `/api/users/` -/

set_option maxRecDepth 100000 in
theorem users_route_registered :
    ∃ rt ∈ apiRouter.routes, rt.pathOk "/api/users/".data = true ∧ rt.methods = none ∧
      rt.slashMismatch "/api/users/".data = false ∧ rt.handler.target = .Users ∧
      apiRouter.gatesOf rt =
        [.RequireAPIKey, .EnforceViewOnly, .RequirePermission PermissionModifySystem] := by
  decide

theorem methodOk_of_no_methods (rt : Route) (m : String) (h : rt.methods = none) :
    rt.methodOk m = true := by
  simp [Route.methodOk, h]

/-- The outcome of a request to `/api/users/` once the first two gates have
passed: the Permission gate decides. -/
theorem serve_users (store : String → Option Principal) (req : Request) (c1 c2 : Ctx)
    (p : Principal) (hpath : req.path = "/api/users/")
    (hauth : specGates store .RequireAPIKey ⟨req, none⟩ = .ok c1)
    (hview : specGates store .EnforceViewOnly c1 = .ok c2)
    (hp : c2.user = some p) :
    apiRouter.ServeHTTP (specGates store) req =
      if p.capabilities.contains PermissionModifySystem then .invoke .Users c2
      else .rejected .Forbidden := by
  obtain ⟨rt, hrt, hpo, hme, hsl, htar, hg⟩ := users_route_registered
  rw [← hpath] at hpo hsl
  rw [serve_of_route rt (specGates store) req hrt hpo (methodOk_of_no_methods rt _ hme) hsl,
    hg, runGates_base (specGates store) _ _ c1 c2 hauth hview, htar]
  simp only [runGates, specGates, hp]
  by_cases hc : PermissionModifySystem ∈ p.capabilities
  · simp [hc]
  · simp [hc]

/-- C2: on a request to `/api/users/` that passes the Authentication and
View-Only gates, the Users handler is invoked if and only if the capability
set of the principal contains modify-system; for a principal lacking it the
outcome is Forbidden, so the handler is not invoked. -/
theorem users_requires_modify_system (store : String → Option Principal) (req : Request)
    (c1 c2 : Ctx) (p : Principal) (hpath : req.path = "/api/users/")
    (hauth : specGates store .RequireAPIKey ⟨req, none⟩ = .ok c1)
    (hview : specGates store .EnforceViewOnly c1 = .ok c2)
    (hp : c2.user = some p) :
    ((∃ ctx, apiRouter.ServeHTTP (specGates store) req = .invoke .Users ctx) ↔
      PermissionModifySystem ∈ p.capabilities) ∧
    (PermissionModifySystem ∉ p.capabilities →
      apiRouter.ServeHTTP (specGates store) req = .rejected .Forbidden) := by
  have hs := serve_users store req c1 c2 p hpath hauth hview hp
  by_cases hc : PermissionModifySystem ∈ p.capabilities
  · have hc1 : p.capabilities.contains PermissionModifySystem = true := by simpa using hc
    rw [hc1] at hs
    exact ⟨⟨fun _ => hc, fun _ => ⟨c2, by simpa using hs⟩⟩, fun h => absurd hc h⟩
  · have hc1 : ¬ p.capabilities.contains PermissionModifySystem = true := by simpa using hc
    rw [if_neg hc1] at hs
    refine ⟨⟨?_, fun h => absurd h hc⟩, fun _ => hs⟩
    rintro ⟨ctx, hctx⟩
    rw [hs] at hctx
    exact absurd hctx (by simp)

/-- A key without capabilities posting to `/api/users/` is answered Forbidden. -/
theorem users_requires_modify_system_witness :
    ((∃ ctx, apiRouter.ServeHTTP (specGates (keyStore "K" plainPrincipal))
        ⟨"POST", "/api/users/", some "K"⟩ = .invoke .Users ctx) ↔
      PermissionModifySystem ∈ plainPrincipal.capabilities) ∧
    (PermissionModifySystem ∉ plainPrincipal.capabilities →
      apiRouter.ServeHTTP (specGates (keyStore "K" plainPrincipal))
        ⟨"POST", "/api/users/", some "K"⟩ = .rejected .Forbidden) :=
  users_requires_modify_system (keyStore "K" plainPrincipal) ⟨"POST", "/api/users/", some "K"⟩
    ⟨⟨"POST", "/api/users/", some "K"⟩, some plainPrincipal⟩
    ⟨⟨"POST", "/api/users/", some "K"⟩, some plainPrincipal⟩ plainPrincipal rfl rfl rfl rfl

/-! ## Tenant-scoped routes -/

/-- C3, as stated, fails: the route `/api/imap/tenant/{tenant_id}` carries a
tenant identifier and has no Permission gate, and a key without capabilities
reaches its handler. -/
theorem imap_tenant_route_ungated :
    (∃ rt ∈ apiRouter.routes, rt.hasVar "tenant_id" = true ∧
      rt.template = "/api/imap/tenant/{tenant_id:[0-9]+}" ∧
      (apiRouter.describe rt).hasPermissionGate = false) ∧
    apiRouter.ServeHTTP (specGates (keyStore "K" plainPrincipal))
        ⟨"GET", "/api/imap/tenant/7", some "K"⟩ =
      .invoke .ImapsByTenant ⟨⟨"GET", "/api/imap/tenant/7", some "K"⟩, some plainPrincipal⟩ := by
  decide

set_option maxRecDepth 100000 in
theorem tenant_routes_listed :
    (apiRouter.routes.filter (fun rt => rt.hasVar "tenant_id")).map apiRouter.describe =
      [⟨"/api/imap/tenant/{tenant_id:[0-9]+}", none,
          [.RequireAPIKey, .EnforceViewOnly], .ImapsByTenant⟩,
       ⟨"/api/campaigns/tenant/{tenant_id:[0-9]+}", none,
          [.RequireAPIKey, .EnforceViewOnly], .CampaignsByTenant⟩,
       ⟨"/api/groups/tenant/{tenant_id:[0-9]+}", none,
          [.RequireAPIKey, .EnforceViewOnly], .GroupsByTenant⟩,
       ⟨"/api/templates/tenant/{tenant_id:[0-9]+}", none,
          [.RequireAPIKey, .EnforceViewOnly], .TemplatesByTenant⟩,
       ⟨"/api/pages/tenant/{tenant_id:[0-9]+}", none,
          [.RequireAPIKey, .EnforceViewOnly], .PagesByTenant⟩,
       ⟨"/api/smtp/tenant/{tenant_id:[0-9]+}", none,
          [.RequireAPIKey, .EnforceViewOnly], .SmtpsByTenant⟩,
       ⟨"/api/users/tenant/{tenant_id:[0-9]+}", none,
          [.RequireAPIKey, .EnforceViewOnly], .UsersByTenant⟩,
       ⟨"/api/webhooks/tenant/{tenant_id:[0-9]+}", none,
          [.RequireAPIKey, .EnforceViewOnly, .RequirePermission PermissionModifySystem],
          .WebhooksByTenant⟩] := by
  decide

set_option maxRecDepth 100000 in
theorem webhooks_tenant_route_gates :
    ∀ rt ∈ apiRouter.routes, rt.handler.target = .WebhooksByTenant →
      apiRouter.gatesOf rt =
        [.RequireAPIKey, .EnforceViewOnly, .RequirePermission PermissionModifySystem] := by
  decide

set_option maxRecDepth 100000 in
theorem other_tenant_route_gates :
    ∀ rt ∈ apiRouter.routes, rt.hasVar "tenant_id" = true →
      rt.handler.target ≠ .WebhooksByTenant →
      apiRouter.gatesOf rt = [.RequireAPIKey, .EnforceViewOnly] ∧ rt.methods = none := by
  decide

/-- What the Permission gate of the spec lets through. -/
theorem specGates_permission_ok (store : String → Option Principal) (c : Capability)
    (c2 ctx : Ctx) (h : specGates store (.RequirePermission c) c2 = .ok ctx) :
    ctx = c2 ∧ ∃ p, c2.user = some p ∧ c ∈ p.capabilities := by
  simp only [specGates] at h
  cases hu : c2.user with
  | none => rw [hu] at h; exact absurd h (by simp)
  | some p =>
      rw [hu] at h
      by_cases hc : c ∈ p.capabilities
      · simp [hc] at h
        exact ⟨h.symm, p, rfl, hc⟩
      · simp [hc] at h

/-- C3, amended: of the eight registered routes whose template has a
`{tenant_id}` segment, only `/webhooks/tenant/{tenant_id}` has a Permission
gate (modify-system), and its handler is invoked only for a principal holding
modify-system; the other seven have exactly the Authentication and View-Only
gates, so their handlers are reached by every request that passes these two. -/
theorem tenant_routes_permission_gates :
    ((apiRouter.routes.filter (fun rt => rt.hasVar "tenant_id")).map
        (fun rt => ((apiRouter.describe rt).template, (apiRouter.describe rt).hasPermissionGate)) =
      [("/api/imap/tenant/{tenant_id:[0-9]+}", false),
       ("/api/campaigns/tenant/{tenant_id:[0-9]+}", false),
       ("/api/groups/tenant/{tenant_id:[0-9]+}", false),
       ("/api/templates/tenant/{tenant_id:[0-9]+}", false),
       ("/api/pages/tenant/{tenant_id:[0-9]+}", false),
       ("/api/smtp/tenant/{tenant_id:[0-9]+}", false),
       ("/api/users/tenant/{tenant_id:[0-9]+}", false),
       ("/api/webhooks/tenant/{tenant_id:[0-9]+}", true)]) ∧
    (∀ (store : String → Option Principal) (req : Request) (ctx : Ctx),
      apiRouter.ServeHTTP (specGates store) req = .invoke .WebhooksByTenant ctx →
        ∃ p, ctx.user = some p ∧ PermissionModifySystem ∈ p.capabilities) ∧
    (∀ rt ∈ apiRouter.routes, rt.hasVar "tenant_id" = true →
      rt.handler.target ≠ .WebhooksByTenant →
      ∀ (sem : GateSem) (req : Request) (c1 c2 : Ctx),
        rt.pathOk req.path.data = true → rt.slashMismatch req.path.data = false →
        sem .RequireAPIKey ⟨req, none⟩ = .ok c1 →
        sem .EnforceViewOnly c1 = .ok c2 →
        apiRouter.ServeHTTP sem req = .invoke rt.handler.target c2) := by
  refine ⟨by decide, ?_, ?_⟩
  · intro store req ctx hs
    obtain ⟨rt, hrt, htar, _, _, _, hg⟩ :=
      serve_invoke_elim apiRouter (specGates store) req _ ctx hs
    rw [webhooks_tenant_route_gates rt hrt htar] at hg
    cases h1 : specGates store .RequireAPIKey ⟨req, none⟩ with
    | error e => simp [runGates, h1] at hg
    | ok c1 =>
        cases h2 : specGates store .EnforceViewOnly c1 with
        | error e => simp [runGates, h1, h2] at hg
        | ok c2 =>
            rw [runGates_base (specGates store) _ _ c1 c2 h1 h2] at hg
            cases h3 : specGates store (.RequirePermission PermissionModifySystem) c2 with
            | error e => simp [runGates, h3] at hg
            | ok c3 =>
                simp only [runGates, h3, Except.ok.injEq] at hg
                obtain ⟨e, p, hp, hc⟩ := specGates_permission_ok store _ c2 c3 h3
                subst hg
                subst e
                exact ⟨p, hp, hc⟩
  · intro rt hrt hv hne sem req c1 c2 hpo hsl h1 h2
    obtain ⟨hg, hme⟩ := other_tenant_route_gates rt hrt hv hne
    rw [serve_of_route rt sem req hrt hpo (methodOk_of_no_methods rt _ hme) hsl,
      hg, runGates_base sem _ _ c1 c2 h1 h2]
    rfl

/-- The handler of `/api/webhooks/tenant/3` is invoked for an admin key, whose
principal holds modify-system. -/
theorem tenant_routes_permission_gates_witness :
    ∃ p, (⟨⟨"GET", "/api/webhooks/tenant/3", some "A"⟩, some adminPrincipal⟩ : Ctx).user =
        some p ∧ PermissionModifySystem ∈ p.capabilities :=
  tenant_routes_permission_gates.2.1 (keyStore "A" adminPrincipal)
    ⟨"GET", "/api/webhooks/tenant/3", some "A"⟩
    ⟨⟨"GET", "/api/webhooks/tenant/3", some "A"⟩, some adminPrincipal⟩ (by decide)

/-! ## Which routes carry a Permission gate -/

/-- C4, as stated, fails: `/api/users/{id}` lies under `/users` and has no
Permission gate, and a key without capabilities reaches its handler. -/
theorem user_item_route_ungated :
    (∃ d ∈ apiRouter.table, d.under "/users" = true ∧
      d.template = "/api/users/{id:[0-9]+}" ∧ d.hasPermissionGate = false) ∧
    apiRouter.ServeHTTP (specGates (keyStore "K" plainPrincipal))
        ⟨"PUT", "/api/users/5", some "K"⟩ =
      .invoke .User ⟨⟨"PUT", "/api/users/5", some "K"⟩, some plainPrincipal⟩ := by
  decide

set_option maxRecDepth 100000 in
theorem campaigns_route_registered :
    ∃ rt ∈ apiRouter.routes, rt.pathOk "/api/campaigns/".data = true ∧ rt.methods = none ∧
      rt.slashMismatch "/api/campaigns/".data = false ∧ rt.handler.target = .Campaigns ∧
      apiRouter.gatesOf rt = [.RequireAPIKey, .EnforceViewOnly] := by
  decide

/-- C4, amended: the registered routes with a Permission gate are exactly
`/users/` and the four routes under `/webhooks`, each with
`RequirePermission(modify-system)`; the routes `/users/{id}`,
`/users/tenant/{tenant_id}`, `/tenants` and `/tenants/{id}` have none, and no
route under `/campaigns`, `/templates`, `/pages`, `/groups` or `/smtp` has
one, so a `GET /api/campaigns/` with the key of any principal, in particular
one with the empty capability set, reaches the Campaigns handler. -/
theorem permission_gated_routes :
    ((apiRouter.table.filter RouteDescriptor.hasPermissionGate).map
        (fun d => (d.template, d.gates)) =
      [("/api/users/",
          [.RequireAPIKey, .EnforceViewOnly, .RequirePermission PermissionModifySystem]),
       ("/api/webhooks/",
          [.RequireAPIKey, .EnforceViewOnly, .RequirePermission PermissionModifySystem]),
       ("/api/webhooks/{id:[0-9]+}/validate",
          [.RequireAPIKey, .EnforceViewOnly, .RequirePermission PermissionModifySystem]),
       ("/api/webhooks/{id:[0-9]+}",
          [.RequireAPIKey, .EnforceViewOnly, .RequirePermission PermissionModifySystem]),
       ("/api/webhooks/tenant/{tenant_id:[0-9]+}",
          [.RequireAPIKey, .EnforceViewOnly, .RequirePermission PermissionModifySystem])]) ∧
    ((apiRouter.table.filter (fun d =>
        (d.under "/users" || d.under "/webhooks" || d.under "/tenants") &&
          !d.hasPermissionGate)).map (fun d => d.template) =
      ["/api/users/{id:[0-9]+}", "/api/users/tenant/{tenant_id:[0-9]+}", "/api/tenants",
       "/api/tenants/{id:[0-9]+}"]) ∧
    (∀ d ∈ apiRouter.table,
      (d.under "/campaigns" || d.under "/templates" || d.under "/pages" || d.under "/groups" ||
        d.under "/smtp") = true → d.gates = [.RequireAPIKey, .EnforceViewOnly]) ∧
    (∀ (store : String → Option Principal) (key : String) (p : Principal),
      store key = some p →
      apiRouter.ServeHTTP (specGates store) ⟨"GET", "/api/campaigns/", some key⟩ =
        .invoke .Campaigns ⟨⟨"GET", "/api/campaigns/", some key⟩, some p⟩) := by
  refine ⟨by decide, by decide, by decide, ?_⟩
  intro store key p hs
  obtain ⟨rt, hrt, hpo, hme, hsl, htar, hg⟩ := campaigns_route_registered
  have h1 := specGates_auth store ⟨"GET", "/api/campaigns/", some key⟩ key p rfl hs
  have hget : mutatingMethods.contains "GET" = false := by decide
  have h2 := specGates_view store ⟨"GET", "/api/campaigns/", some key⟩ p
    (by show (p.readOnly && mutatingMethods.contains "GET") = false
        rw [hget, Bool.and_false])
  rw [serve_of_route rt (specGates store) ⟨"GET", "/api/campaigns/", some key⟩ hrt hpo
      (methodOk_of_no_methods rt _ hme) hsl,
    hg, runGates_base (specGates store) _ _ _ _ h1 h2, htar]
  rfl

/-- A key with the empty capability set that is not read-only reaches the
Campaigns handler. -/
theorem permission_gated_routes_witness :
    apiRouter.ServeHTTP (specGates (keyStore "K" plainPrincipal))
        ⟨"GET", "/api/campaigns/", some "K"⟩ =
      .invoke .Campaigns ⟨⟨"GET", "/api/campaigns/", some "K"⟩, some plainPrincipal⟩ :=
  permission_gated_routes.2.2.2 (keyStore "K" plainPrincipal) "K" plainPrincipal rfl

/-! ## `NewServer` and its options -/

theorem registerRoutes_handler {W L : Type} (as : Server W L) :
    as.registerRoutes.handler = some apiRouter := rfl

theorem registerRoutes_worker {W L : Type} (as : Server W L) :
    as.registerRoutes.worker = as.worker := rfl

theorem registerRoutes_limiter {W L : Type} (as : Server W L) :
    as.registerRoutes.limiter = as.limiter := rfl

theorem registerRoutes_table {W L : Type} (as : Server W L) :
    as.registerRoutes.table = apiRouter.table := rfl

/-- C5: when `worker.New()` has returned a default worker, `NewServer` with
`WithWorker(w)` and `WithLimiter(l)`, in either order, returns a server with
worker `w` and limiter `l` whose handler and route table are those of
`NewServer()` without options; `WithWorker` changes neither the limiter nor
the handler, and `WithLimiter` neither the worker nor the handler. -/
theorem options_substitute_worker_and_limiter {W L : Type} (defaultWorker w : W)
    (defaultLimiter l : L) :
    (∃ s s0 : Server W L,
      NewServer (.ok defaultWorker) defaultLimiter [WithWorker w, WithLimiter l] = some s ∧
      NewServer (.ok defaultWorker) defaultLimiter [WithLimiter l, WithWorker w] = some s ∧
      NewServer (.ok defaultWorker) defaultLimiter [] = some s0 ∧
      s.worker = w ∧ s.limiter = l ∧ s0.worker = defaultWorker ∧ s0.limiter = defaultLimiter ∧
      s.handler = s0.handler ∧ s.table = s0.table ∧ s.table = apiRouter.table) ∧
    (∀ as : Server W L, (WithWorker w as).limiter = as.limiter ∧
      (WithWorker w as).handler = as.handler ∧ (WithWorker w as).worker = w) ∧
    (∀ as : Server W L, (WithLimiter l as).worker = as.worker ∧
      (WithLimiter l as).handler = as.handler ∧ (WithLimiter l as).limiter = l) :=
  ⟨⟨_, _, rfl, rfl, rfl, rfl, rfl, rfl, rfl, rfl, rfl, rfl⟩,
    fun _ => ⟨rfl, rfl, rfl⟩, fun _ => ⟨rfl, rfl, rfl⟩⟩

/-- C10: the default worker is constructed before any option is applied.  If
`worker.New()` fails, `NewServer` returns no server whatever the options, also
with `WithWorker(w)` among them; if it succeeds, `NewServer` returns the
server obtained by applying the options in order to the defaults and then
registering the routes, so its handler is the API router. -/
theorem newServer_default_worker_first {W L : Type} (defaultLimiter : L) :
    (∀ (e : String) (options : List (ServerOption W L)),
      NewServer (.error e) defaultLimiter options = none) ∧
    (∀ (e : String) (w : W) (before after : List (ServerOption W L)),
      NewServer (.error e) defaultLimiter (before ++ WithWorker w :: after) = none) ∧
    (∀ (defaultWorker : W) (options : List (ServerOption W L)),
      ∃ s : Server W L, NewServer (.ok defaultWorker) defaultLimiter options = some s ∧
        s = (options.foldl (fun (as : Server W L) (opt : ServerOption W L) => opt as)
          ({ handler := none, worker := defaultWorker,
             limiter := defaultLimiter } : Server W L)).registerRoutes ∧
        s.handler = some apiRouter ∧ s.table = apiRouter.table) :=
  ⟨fun _ _ => rfl, fun _ _ _ _ => rfl, fun _ _ => ⟨_, rfl, rfl, rfl, rfl⟩⟩

/-! ## Path variables -/

set_option maxRecDepth 100000 in
theorem routes_pieces_digit_vars :
    ∀ rt ∈ apiRouter.routes, rt.pieces.all Piece.isDigitVar = true ∧
      compilePieces rt.pieces = some rt.toks ∧
      rt.toks = rt.pfx.map Tok.ch ++ rt.toks.drop rt.pfx.length := by
  decide

theorem fill_ch_append (pfx : List Char) (rest : List Tok) (vals : List (List Char)) :
    fill (pfx.map Tok.ch ++ rest) vals = pfx ++ fill rest vals := by
  induction pfx with
  | nil => rfl
  | cons c pfx ih => simp [fill, ih]

theorem isDigits_iff (v : List Char) :
    isDigits v = true ↔ v ≠ [] ∧ ∀ c ∈ v, c.isDigit = true := by
  cases v <;> simp [isDigits]

/-- A registered route accepts exactly the paths written from its template
with a non-empty digit sequence for every variable, with or without one
trailing slash. -/
theorem pathOk_iff_fill (rt : Route) (hrt : rt ∈ apiRouter.routes) (path : List Char) :
    rt.pathOk path = true ↔
      ∃ vals : List (List Char), vals.length = varCount rt.toks ∧
        (∀ v ∈ vals, v ≠ [] ∧ ∀ c ∈ v, c.isDigit = true) ∧
        (path = fill rt.toks vals ∨ path = fill rt.toks vals ++ ['/']) := by
  have hw := routes_wellFormed rt hrt
  constructor
  · intro hp
    obtain ⟨hm, _⟩ := pathOk_matchToks rt path hw hp
    obtain ⟨vals, hl, hv, hs⟩ := matchToks_sound true path rt.toks hm
    refine ⟨vals, hl, fun v hvm => (isDigits_iff v).mp (hv v hvm), ?_⟩
    rcases hs with hs | ⟨_, hs⟩
    · exact Or.inl hs
    · exact Or.inr hs
  · rintro ⟨vals, hl, hv, hs⟩
    have hv1 : ∀ v ∈ vals, isDigits v = true := fun v hvm => (isDigits_iff v).mpr (hv v hvm)
    obtain ⟨_, _, hpre⟩ := routes_pieces_digit_vars rt hrt
    have hmatch : matchToks true rt.toks path = true := by
      rcases hs with hs | hs
      · have := matchToks_fill true [] rfl rt.toks vals hl hv1
        rw [hs]
        simpa using this
      · have := matchToks_fill true ['/'] rfl rt.toks vals hl hv1
        rw [hs]
        exact this
    have hprefix : rt.pfx.isPrefixOf path = true := by
      rw [List.isPrefixOf_iff_prefix]
      rcases hs with hs | hs
      · rw [hs, hpre, fill_ch_append]
        exact List.prefix_append _ _
      · rw [hs, hpre, fill_ch_append, List.append_assoc]
        exact List.prefix_append _ _
    unfold Route.wellFormed at hw
    unfold Route.toks at hmatch
    unfold Route.pathOk
    cases hre : rt.regexp with
    | none => rw [hre] at hw; exact absurd hw (by simp)
    | some re =>
        rw [hre] at hw hmatch
        simp only [Bool.and_eq_true] at hw
        simp only [RouteRegexp.Match, hw.1, hprefix, Bool.true_and]
        exact hmatch

/-- C6: every path variable of every registered route is named `id` or
`tenant_id` and constrained to `[0-9]+`; a registered route matches a path if
and only if the path is its template with a non-empty sequence of decimal
digits written for every variable (with or without one trailing slash), so no
route matches through a variable whose segment is empty or has a non-digit;
the paths `/api/campaigns/abc` and `/api/users/tenant/` followed by `-1`
match no route. -/
theorem path_variables_digits (rt : Route) (hrt : rt ∈ apiRouter.routes) :
    (∀ n p, Piece.var n p ∈ rt.pieces →
      p = "[0-9]+".data ∧ (n = "id".data ∨ n = "tenant_id".data)) ∧
    compilePieces rt.pieces = some rt.toks ∧
    (∀ path : List Char, rt.pathOk path = true ↔
      ∃ vals : List (List Char), vals.length = varCount rt.toks ∧
        (∀ v ∈ vals, v ≠ [] ∧ ∀ c ∈ v, c.isDigit = true) ∧
        (path = fill rt.toks vals ∨ path = fill rt.toks vals ++ ['/'])) ∧
    (∀ (method : String) (key : Option String),
      apiRouter.Match ⟨method, "/api/campaigns/abc", key⟩ = .notFound ∧
      apiRouter.Match ⟨method, "/api/campaigns/", key⟩ ≠ .notFound ∧
      apiRouter.Match ⟨method, "/api/users/tenant/-1", key⟩ = .notFound ∧
      apiRouter.Match ⟨method, "/api/users/tenant/", key⟩ = .notFound) := by
  obtain ⟨hall, hcomp, _⟩ := routes_pieces_digit_vars rt hrt
  refine ⟨?_, hcomp, pathOk_iff_fill rt hrt, ?_⟩
  · intro n p hmem
    have := List.all_eq_true.mp hall _ hmem
    simp only [Piece.isDigitVar, Bool.and_eq_true, Bool.or_eq_true, beq_iff_eq] at this
    exact this
  · intro method key
    have h1 : apiRouter.routes.filter (fun r => r.pathOk "/api/campaigns/abc".data) = [] := by
      decide
    have h2 : apiRouter.routes.filter (fun r => r.pathOk "/api/users/tenant/-1".data) = [] := by
      decide
    have h3 : apiRouter.routes.filter (fun r => r.pathOk "/api/users/tenant/".data) = [] := by
      decide
    refine ⟨match_of_no_route ⟨method, "/api/campaigns/abc", key⟩ h1, ?_,
      match_of_no_route ⟨method, "/api/users/tenant/-1", key⟩ h2,
      match_of_no_route ⟨method, "/api/users/tenant/", key⟩ h3⟩
    obtain ⟨r, hr, hpo, hme, hsl, _, _⟩ := campaigns_route_registered
    rw [match_of_route r ⟨method, "/api/campaigns/", key⟩ hr hpo]
    simp [methodOk_of_no_methods r _ hme, hsl]

/-- The template `/api/campaigns/{id}` accepts `/api/campaigns/12` with the
value `12`, and only digit values. -/
theorem path_variables_digits_witness :
    campaignItemRoute.pathOk "/api/campaigns/12".data = true ∧
    (campaignItemRoute.pathOk "/api/campaigns/12".data = true ↔
      ∃ vals : List (List Char), vals.length = varCount campaignItemRoute.toks ∧
        (∀ v ∈ vals, v ≠ [] ∧ ∀ c ∈ v, c.isDigit = true) ∧
        ("/api/campaigns/12".data = fill campaignItemRoute.toks vals ∨
          "/api/campaigns/12".data = fill campaignItemRoute.toks vals ++ ['/'])) :=
  ⟨by decide, (path_variables_digits campaignItemRoute (by decide)).2.2.1 "/api/campaigns/12".data⟩

/-! ## Method restrictions -/

set_option maxRecDepth 100000 in
theorem routes_methods :
    ∀ rt ∈ apiRouter.routes,
      (rt.handler.target = .Tenants → rt.methods = some ["GET", "POST"]) ∧
      (rt.handler.target = .Tenant → rt.methods = some ["GET", "PUT", "DELETE"]) ∧
      (rt.handler.target ≠ .Tenants → rt.handler.target ≠ .Tenant → rt.methods = none) := by
  decide

theorem match_found_iff_methodOk (rt : Route) (req : Request) (hrt : rt ∈ apiRouter.routes)
    (hp : rt.pathOk req.path.data = true) (hs : rt.slashMismatch req.path.data = false) :
    (apiRouter.Match req = .found ⟨apiRouter.gatesOf rt, .handler rt.handler.target⟩ ↔
      rt.methodOk req.method = true) ∧
    (rt.methodOk req.method = false → apiRouter.Match req = .methodNotAllowed) := by
  rw [match_of_route rt req hrt hp]
  by_cases hm : rt.methodOk req.method = true
  · simp [hm, hs]
  · simp [hm]

/-- C8: only the two tenant-management routes have a method matcher.  On a
path that a registered route accepts without a strict-slash redirect, the
router hands the request to the Tenants handler exactly for GET and POST, to
the Tenant handler exactly for GET, PUT and DELETE, and to the handler of any
other route for every method; when it does not, the answer is method not
allowed and no handler is invoked. -/
theorem method_restrictions (rt : Route) (hrt : rt ∈ apiRouter.routes) (req : Request)
    (hp : rt.pathOk req.path.data = true) (hs : rt.slashMismatch req.path.data = false) :
    ((apiRouter.table.filter (fun d => d.methods.isSome)).map
        (fun d => (d.template, d.methods, d.handler)) =
      [("/api/tenants", some ["GET", "POST"], Handler.Tenants),
       ("/api/tenants/{id:[0-9]+}", some ["GET", "PUT", "DELETE"], Handler.Tenant)]) ∧
    (rt.handler.target = .Tenants →
      (apiRouter.Match req = .found ⟨apiRouter.gatesOf rt, .handler .Tenants⟩ ↔
        req.method = "GET" ∨ req.method = "POST")) ∧
    (rt.handler.target = .Tenant →
      (apiRouter.Match req = .found ⟨apiRouter.gatesOf rt, .handler .Tenant⟩ ↔
        req.method = "GET" ∨ req.method = "PUT" ∨ req.method = "DELETE")) ∧
    (rt.handler.target ≠ .Tenants → rt.handler.target ≠ .Tenant →
      apiRouter.Match req = .found ⟨apiRouter.gatesOf rt, .handler rt.handler.target⟩) ∧
    (apiRouter.Match req = .found ⟨apiRouter.gatesOf rt, .handler rt.handler.target⟩ ∨
      apiRouter.Match req = .methodNotAllowed) := by
  obtain ⟨h1, h2, h3⟩ := routes_methods rt hrt
  obtain ⟨hiff, hno⟩ := match_found_iff_methodOk rt req hrt hp hs
  refine ⟨by decide, ?_, ?_, ?_, ?_⟩
  · intro ht
    rw [← ht, hiff]
    simp [Route.methodOk, h1 ht]
  · intro ht
    rw [← ht, hiff]
    simp [Route.methodOk, h2 ht]
  · intro n1 n2
    exact hiff.mpr (methodOk_of_no_methods rt _ (h3 n1 n2))
  · cases hm : rt.methodOk req.method with
    | true => exact Or.inl (hiff.mpr hm)
    | false => exact Or.inr (hno hm)

/-- On `/api/tenants` the method POST reaches the Tenants handler. -/
theorem method_restrictions_witness :
    (apiRouter.Match ⟨"POST", "/api/tenants", none⟩ =
        .found ⟨apiRouter.gatesOf tenantsRoute, .handler .Tenants⟩ ↔
      ("POST" = "GET" ∨ "POST" = "POST")) ∧
    (apiRouter.Match ⟨"PATCH", "/api/tenants", none⟩ =
        .found ⟨apiRouter.gatesOf tenantsRoute, .handler .Tenants⟩ ↔
      ("PATCH" = "GET" ∨ "PATCH" = "POST")) :=
  ⟨(method_restrictions tenantsRoute (by decide) ⟨"POST", "/api/tenants", none⟩
      (by decide) (by decide)).2.1 rfl,
   (method_restrictions tenantsRoute (by decide) ⟨"PATCH", "/api/tenants", none⟩
      (by decide) (by decide)).2.1 rfl⟩

/-! ## Disjoint templates -/

/-- C9: for every request path at most one registered route matches it, no
two registered templates are the same, and dispatch over any reordering of
the registered routes gives the result of dispatch in registration order. -/
theorem registered_templates_disjoint (req : Request) (rs : List Route)
    (hperm : rs.Perm apiRouter.routes) :
    (∀ rt1 ∈ apiRouter.routes, ∀ rt2 ∈ apiRouter.routes,
      rt1.pathOk req.path.data = true → rt2.pathOk req.path.data = true → rt1 = rt2) ∧
    (apiRouter.routes.filter (fun rt => rt.pathOk req.path.data)).length ≤ 1 ∧
    (apiRouter.table.map (fun d => d.template)).Nodup ∧
    matchRoutes apiRouter.middlewares req rs false = apiRouter.Match req := by
  refine ⟨fun rt1 h1 rt2 h2 p1 p2 => routes_disjoint req.path.data rt1 rt2 h1 h2 p1 p2,
    filter_pathOk_length req.path.data, by decide, ?_⟩
  unfold Router.Match
  rw [matchRoutes_filter apiRouter.middlewares req rs,
    matchRoutes_filter apiRouter.middlewares req apiRouter.routes]
  have hf := hperm.filter (fun rt => rt.pathOk req.path.data)
  have hl := filter_pathOk_length req.path.data
  cases hc : apiRouter.routes.filter (fun rt => rt.pathOk req.path.data) with
  | nil =>
      rw [hc] at hf
      rw [hf.eq_nil]
  | cons a l =>
      rw [hc] at hf hl
      cases l with
      | nil => rw [List.perm_singleton.mp hf]
      | cons b l => simp at hl

/-- Dispatch of `GET /api/campaigns/summary` over the routes in reverse
registration order. -/
theorem registered_templates_disjoint_witness :
    (∀ rt1 ∈ apiRouter.routes, ∀ rt2 ∈ apiRouter.routes,
      rt1.pathOk "/api/campaigns/summary".data = true →
      rt2.pathOk "/api/campaigns/summary".data = true → rt1 = rt2) ∧
    (apiRouter.routes.filter (fun rt => rt.pathOk "/api/campaigns/summary".data)).length ≤ 1 ∧
    (apiRouter.table.map (fun d => d.template)).Nodup ∧
    matchRoutes apiRouter.middlewares ⟨"GET", "/api/campaigns/summary", none⟩
        apiRouter.routes.reverse false =
      apiRouter.Match ⟨"GET", "/api/campaigns/summary", none⟩ :=
  registered_templates_disjoint ⟨"GET", "/api/campaigns/summary", none⟩ apiRouter.routes.reverse
    (List.reverse_perm _)

/-! ## Admission of a burst -/

theorem window_within (l : PostLimiter) (key : String) (now c t0 : Nat)
    (hw : l.windows key = some ⟨c, t0⟩) (hc : c ≤ l.burst) (ht : now < t0 + l.interval) :
    l.window key now = ⟨c, t0⟩ := by
  have hk : (now - t0) / l.interval = 0 := by
    rcases Nat.eq_zero_or_pos l.interval with h0 | _
    · rw [h0, Nat.div_zero]
    · exact Nat.div_eq_of_lt (by omega)
  simp only [PostLimiter.window, hw, hk, Nat.zero_mul, Nat.add_zero, Nat.min_eq_right hc]

theorem window_fresh (l : PostLimiter) (key : String) (now : Nat)
    (hw : l.windows key = none) : l.window key now = ⟨l.burst, now⟩ := by
  simp only [PostLimiter.window, hw]

/-- Taking a token from a bucket that has one. -/
theorem allow_of_tokens (l : PostLimiter) (key : String) (now c t0 : Nat)
    (hw : l.window key now = ⟨c + 1, t0⟩) :
    (l.Allow key now).1 = true ∧ (l.Allow key now).2.windows key = some ⟨c, t0⟩ ∧
      (l.Allow key now).2.burst = l.burst ∧ (l.Allow key now).2.interval = l.interval := by
  simp [PostLimiter.Allow, hw]

/-- An empty bucket denies. -/
theorem allow_of_empty (l : PostLimiter) (key : String) (now t0 : Nat)
    (hw : l.window key now = ⟨0, t0⟩) :
    (l.Allow key now).1 = false ∧ (l.Allow key now).2.windows key = some ⟨0, t0⟩ ∧
      (l.Allow key now).2.burst = l.burst ∧ (l.Allow key now).2.interval = l.interval := by
  simp [PostLimiter.Allow, hw]

/-- A `POST /api/users/` from a principal that holds modify-system and is not
read-only passes the gates; the limiter of the server then decides. -/
theorem respond_post_users {W : Type} (as : Server W PostLimiter)
    (store : String → Option Principal) (key : String) (p : Principal) (now : Nat)
    (hh : as.handler = some apiRouter) (hs : store key = some p)
    (hcap : PermissionModifySystem ∈ p.capabilities) (hro : p.readOnly = false) :
    as.respond store now (postUsers key now).2 =
      (if (as.limiter.Allow key now).1 then Response.Proceeded .Users else Response.RateLimited,
       { as with limiter := (as.limiter.Allow key now).2 }) := by
  have h1 := specGates_auth store ⟨"POST", "/api/users/", some key⟩ key p rfl hs
  have h2 := specGates_view store ⟨"POST", "/api/users/", some key⟩ p (by rw [hro]; rfl)
  have hserve := serve_users store ⟨"POST", "/api/users/", some key⟩ _ _ p rfl h1 h2 rfl
  have hc : p.capabilities.contains PermissionModifySystem = true := by simpa using hcap
  rw [if_pos hc] at hserve
  have hpost : mutatingMethods.contains "POST" = true := by decide
  unfold Server.respond Server.ServeHTTP
  simp only [postUsers, hh, Option.map, hserve, hpost, if_true, rateKey, Option.getD]
  cases (as.limiter.Allow key now).1 <;> rfl

/-- Within one refill interval a bucket holding `c` tokens admits the next `c`
posts to `/api/users/` and denies the rest. -/
theorem respondAll_burst {W : Type} (store : String → Option Principal) (key : String)
    (p : Principal) (t0 : Nat) (hs : store key = some p)
    (hcap : PermissionModifySystem ∈ p.capabilities) (hro : p.readOnly = false) :
    ∀ (ts : List Nat) (c : Nat) (as : Server W PostLimiter),
      as.handler = some apiRouter → as.limiter.windows key = some ⟨c, t0⟩ →
      c ≤ as.limiter.burst → (∀ t ∈ ts, t < t0 + as.limiter.interval) →
      (as.respondAll store (ts.map (postUsers key))).1 =
        List.replicate (min c ts.length) (Response.Proceeded .Users) ++
          List.replicate (ts.length - c) Response.RateLimited := by
  intro ts
  induction ts with
  | nil => intro c as _ _ _ _; simp [Server.respondAll]
  | cons t ts ih =>
      intro c as hh hw hc ht
      have htt := ht t (List.mem_cons_self _ _)
      have hwin := window_within as.limiter key t c t0 hw hc htt
      have hresp := respond_post_users as store key p t hh hs hcap hro
      simp only [postUsers] at hresp
      simp only [List.map_cons, Server.respondAll, postUsers, hresp]
      cases c with
      | zero =>
          obtain ⟨a1, a2, a3, a4⟩ := allow_of_empty as.limiter key t t0 hwin
          have := ih 0 { as with limiter := (as.limiter.Allow key t).2 } hh a2 (Nat.zero_le _)
            (fun x hx => by
              show x < t0 + (as.limiter.Allow key t).2.interval
              rw [a4]; exact ht x (List.mem_cons_of_mem _ hx))
          simp only [postUsers] at this
          rw [this, a1]
          simp [List.replicate_succ]
      | succ c =>
          obtain ⟨a1, a2, a3, a4⟩ := allow_of_tokens as.limiter key t c t0 hwin
          have := ih c { as with limiter := (as.limiter.Allow key t).2 } hh a2
            (by show c ≤ (as.limiter.Allow key t).2.burst
                rw [a3]; omega)
            (fun x hx => by
              show x < t0 + (as.limiter.Allow key t).2.interval
              rw [a4]; exact ht x (List.mem_cons_of_mem _ hx))
          simp only [postUsers] at this
          rw [this, a1]
          simp [List.replicate_succ, Nat.succ_min_succ]

/-- C7: with the limiter of the server configured to burst capacity 10 and no
window yet for the key, eleven posts to `/api/users/` from one key whose
principal holds modify-system and is not read-only, the last ten within one
refill interval of the first, are answered so that the first ten proceed to
the Users handler and the eleventh is rate limited, which is not the response
Forbidden; the limiter consulted is the one the server holds. -/
theorem eleven_posts_burst_ten {W : Type} (defaultWorker : W)
    (defaultLimiter limiter : PostLimiter) (store : String → Option Principal) (key : String)
    (p : Principal) (t0 : Nat) (times : List Nat)
    (hburst : limiter.burst = 10) (hfresh : limiter.windows key = none)
    (hs : store key = some p) (hcap : PermissionModifySystem ∈ p.capabilities)
    (hro : p.readOnly = false) (hlen : times.length = 10)
    (hwin : ∀ t ∈ times, t < t0 + limiter.interval) :
    ∃ s : Server W PostLimiter,
      NewServer (.ok defaultWorker) defaultLimiter [WithLimiter limiter] = some s ∧
      s.limiter.burst = 10 ∧
      (s.respondAll store ((t0 :: times).map (postUsers key))).1 =
        List.replicate 10 (Response.Proceeded .Users) ++ [Response.RateLimited] ∧
      Response.RateLimited ≠ Response.Forbidden := by
  obtain ⟨as, has, hh, hl⟩ : ∃ as : Server W PostLimiter,
      NewServer (.ok defaultWorker) defaultLimiter [WithLimiter limiter] = some as ∧
      as.handler = some apiRouter ∧ as.limiter = limiter := ⟨_, rfl, rfl, rfl⟩
  refine ⟨as, has, by rw [hl]; exact hburst, ?_, by decide⟩
  have hw0 : as.limiter.window key t0 = ⟨9 + 1, t0⟩ := by
    rw [hl, window_fresh limiter key t0 hfresh, hburst]
  obtain ⟨a1, a2, a3, a4⟩ := allow_of_tokens as.limiter key t0 9 t0 hw0
  have hresp := respond_post_users as store key p t0 hh hs hcap hro
  simp only [postUsers] at hresp
  have hrest := respondAll_burst store key p t0 hs hcap hro times 9
    { as with limiter := (as.limiter.Allow key t0).2 } hh a2
    (by show 9 ≤ (as.limiter.Allow key t0).2.burst
        rw [a3, hl, hburst]; omega)
    (fun x hx => by
      show x < t0 + (as.limiter.Allow key t0).2.interval
      rw [a4, hl]; exact hwin x hx)
  simp only [postUsers] at hrest
  simp only [List.map_cons, Server.respondAll, postUsers, hresp]
  rw [hrest, a1, hlen]
  rfl

/-- Eleven posts at times 100 to 110 against a limiter with burst capacity 10
and a refill interval of 60 ticks. -/
theorem eleven_posts_burst_ten_witness :
    ∃ s : Server Unit PostLimiter,
      NewServer (.ok ()) (PostLimiter.configured 5 1 60)
        [WithLimiter (PostLimiter.configured 10 1 60)] = some s ∧
      s.limiter.burst = 10 ∧
      (s.respondAll (keyStore "A" adminPrincipal)
        ((100 :: [101, 102, 103, 104, 105, 106, 107, 108, 109, 110]).map (postUsers "A"))).1 =
        List.replicate 10 (Response.Proceeded .Users) ++ [Response.RateLimited] ∧
      Response.RateLimited ≠ Response.Forbidden :=
  eleven_posts_burst_ten () (PostLimiter.configured 5 1 60) (PostLimiter.configured 10 1 60)
    (keyStore "A" adminPrincipal) "A" adminPrincipal 100
    [101, 102, 103, 104, 105, 106, 107, 108, 109, 110] rfl rfl rfl (by decide) rfl rfl
    (by decide)

end Gophish
